import Mathlib

/-!
Verification of the Phoenix SDR log-analysis engine (`tools/wwv_analyze.py`).

The Python source is shallowly embedded below.  Python `float` values that
the script parses out of CSV text (timestamps in ms, intervals, SNR) are
modelled as rationals (`Rat`); CSV rows are modelled as structures whose
fields hold the raw text of the corresponding columns; Python code that can
raise an uncaught exception (an unguarded `float(...)` conversion, a
`KeyError` on a dict missing a key) is modelled in the `Except String`
monad, `.error` standing for an uncaught exception that aborts the run.
-/

namespace WWV

/-- Models Python `float(s)` on plain decimal literals: an optional sign,
then digits with an optional fractional part.  Returns `none` where the
Python call would raise `ValueError`. -/
def natOfDigits (ds : List Char) : Nat :=
  ds.foldl (fun a c => 10 * a + (c.toNat - 48)) 0

def parseFloat (s : String) : Option Rat :=
  let cs := s.toList
  let sign : Rat := if cs.head? = some '-' then -1 else 1
  let body := if cs.head? = some '-' ∨ cs.head? = some '+' then cs.tail else cs
  let intPart := body.takeWhile Char.isDigit
  let rest := body.dropWhile Char.isDigit
  if rest.isEmpty then
    if intPart.isEmpty then none
    else some (sign * (natOfDigits intPart : Rat))
  else if rest.head? = some '.' ∧ rest.tail.all Char.isDigit ∧
      ¬(intPart.isEmpty ∧ rest.tail.isEmpty) then
    some (sign * ((natOfDigits intPart : Rat) +
      (natOfDigits rest.tail : Rat) / ((10 : Rat) ^ rest.tail.length)))
  else none

/-- Python `float(s)` as it occurs unguarded in the script: a parse failure
is an uncaught `ValueError` that aborts the run. -/
def pyFloat (s : String) : Except String Rat :=
  match parseFloat s with
  | some v => Except.ok v
  | none => Except.error ("ValueError: could not convert string to float: " ++ s)

/-- Left-to-right effectful map: models a Python list comprehension whose
body may raise — the first failing element aborts the whole run. -/
def mapPy {α β : Type} (f : α → Except String β) : List α → Except String (List β)
  | [] => Except.ok []
  | x :: xs =>
    match f x with
    | Except.error e => Except.error e
    | Except.ok y =>
      match mapPy f xs with
      | Except.error e => Except.error e
      | Except.ok ys => Except.ok (y :: ys)

/-- Models Python `needle in hay` on strings (contiguous substring test). -/
def strContains (hay needle : String) : Bool :=
  (hay.toList.tails).any (fun t => needle.toList.isPrefixOf t)

/-- Models Python `hay.endswith(suffix)`. -/
def strEndsWith (hay suffix : String) : Bool :=
  suffix.toList.isSuffixOf hay.toList

/-- Lexicographic comparison of character lists by code point. -/
def charListLe : List Char → List Char → Bool
  | [], _ => true
  | _ :: _, [] => false
  | x :: xs, y :: ys =>
    if x.toNat < y.toNat then true
    else if y.toNat < x.toNat then false
    else charListLe xs ys

/-- Models Python string comparison (lexicographic by code point). -/
def strLe (a b : String) : Bool :=
  charListLe a.toList b.toList

/-- An insertion-ordered association list standing for a Python dict (dicts
preserve insertion order): `updateAssoc k f d` is `dict[k] = f(dict.get(k, d))`,
i.e. the `defaultdict` read-modify-write the script performs. -/
def updateAssoc {β : Type} (k : String) (f : β → β) (d : β) :
    List (String × β) → List (String × β)
  | [] => [(k, f d)]
  | (q, v) :: rest =>
    if q = k then (q, f v) :: rest else (q, v) :: updateAssoc k f d rest

/-- One `counts[label] += 1` step of the script's `defaultdict(int)` tallies. -/
def bump (acc : List (String × Nat)) (k : String) : List (String × Nat) :=
  updateAssoc k (fun n => n + 1) 0 acc

/-- The `defaultdict(int)` tally a label column produces, in dict
(insertion) order. -/
def countLabels (ks : List String) : List (String × Nat) :=
  ks.foldl bump []

/-- Modelled from the spec: the list of labels in first-seen order, the
order the spec says aggregated dicts iterate in. -/
def firstSeen (ks : List String) : List String :=
  ks.foldl (fun acc k => if k ∈ acc then acc else acc ++ [k]) []

/-- A data row of the sync log (raw column text). -/
structure SyncRow where
  state : String
  interval_sec : String
  delta_ms : String
deriving DecidableEq, Repr

/-- A data row of the tick log (raw column text). -/
structure TickRow where
  tick_num : String
  interval_ms : String
  timestamp_ms : String
  duration_ms : String
deriving DecidableEq, Repr

/-- A data row of the marker log (raw column text). -/
structure MarkerRow where
  marker_num : String
  timestamp_ms : String
  duration_ms : String
deriving DecidableEq, Repr

/-- A data row of the channel-quality log (raw column text). -/
structure ChannelRow where
  quality : String
  snr_db : String
deriving DecidableEq, Repr

/-- A data row of the subcarrier log (raw column text). -/
structure SubRow where
  expected : String
  matchv : String
deriving DecidableEq, Repr

/-- A parsed marker event, the Python tuple `(name, timestamp_ms, duration_ms)`
built by `analyze_ticks` / `analyze_markers`. -/
structure Ev where
  name : String
  time : Rat
  dur : Rat
deriving DecidableEq, Repr

/-- The dict `analyze_sync` returns when the log has data rows. -/
structure SyncFull where
  count : Nat
  states : List (String × Nat)
  intervals : List Rat
  first_locked : Option Nat
  avg_delta_ms : Rat
  missed : Nat
deriving DecidableEq, Repr

/-- Result of `analyze_sync`: the zero-row early return (a dict carrying only
`info`, `count`, `states`, `intervals`) or the full dict. -/
inductive SyncResult
  | empty : SyncResult
  | full : SyncFull → SyncResult
deriving DecidableEq, Repr

/-- Embeds `analyze_sync`: tallies states per row, keeps positive `interval_sec`
values, 1-based index of the first LOCKED row, mean `delta_ms`, and the
count of intervals exceeding 90 s.  The `float(...)` conversions on
`interval_sec` and `delta_ms` are unguarded in the source, so a
non-numeric field is an uncaught exception. -/
def analyzeSync (rows : List SyncRow) : Except String SyncResult :=
  if rows.isEmpty then Except.ok SyncResult.empty
  else
    match mapPy (fun r => pyFloat r.interval_sec) rows with
    | Except.error e => Except.error e
    | Except.ok allIntervals =>
      match mapPy (fun r => pyFloat r.delta_ms) rows with
      | Except.error e => Except.error e
      | Except.ok deltas =>
        let intervals := allIntervals.filter (fun i => 0 < i)
        Except.ok (SyncResult.full
          { count := rows.length
            states := countLabels (rows.map (fun r => r.state))
            intervals := intervals
            first_locked := (rows.findIdx? (fun r => r.state = "LOCKED")).map (fun i => i + 1)
            avg_delta_ms := deltas.sum / (rows.length : Rat)
            missed := (intervals.filter (fun i => 90 < i)).length })

/-- Tick identifiers beginning with `"M"` are classified as minute-markers
(the first branch of `analyze_ticks`'s row classification). -/
def isMarkerId (s : String) : Bool :=
  "M".toList.isPrefixOf s.toList

/-- The sentinel identifiers the `elif` branch of `analyze_ticks` excludes
from the tick list. -/
def isSentinelId (s : String) : Bool :=
  s = "META" || s = "GAIN"

/-- Row classification of `analyze_ticks`: a row is a tick when its
identifier does not begin with `"M"` and is not a sentinel. -/
def isTickRowId (s : String) : Bool :=
  !isMarkerId s && !isSentinelId s

/-- The `500 < interval < 10000` validity window of `analyze_ticks`. -/
def tickValid (v : Rat) : Bool :=
  decide (500 < v) && decide (v < 10000)

/-- The `900 <= i <= 1100` good-interval window of `analyze_ticks`. -/
def tickGood (v : Rat) : Bool :=
  decide (900 ≤ v) && decide (v ≤ 1100)

/-- The valid-interval list of `analyze_ticks`: per tick row, the guarded
`float(interval_ms)` (its `try`/`except: pass` silently skips parse
failures) filtered through the validity window. -/
def tickIntervals (rows : List TickRow) : List Rat :=
  (rows.filter (fun r => isTickRowId r.tick_num)).filterMap (fun t =>
    match parseFloat t.interval_ms with
    | some v => if tickValid v then some v else none
    | none => none)

/-- The dict `analyze_ticks` returns when at least one tick row exists. -/
structure TicksFull where
  tick_count : Nat
  marker_count : Nat
  good_interval_pct : Rat
  mean_interval_ms : Rat
  markers : List Ev
deriving DecidableEq, Repr

/-- Result of `analyze_ticks`: the zero-tick early return (a dict carrying
`tick_count = 0`, the marker count, and an empty `markers` list — and no
`good_interval_pct` / `mean_interval_ms` keys) or the full dict. -/
inductive TicksResult
  | empty : Nat → TicksResult
  | full : TicksFull → TicksResult
deriving DecidableEq, Repr

/-- The `markers` entry of an `analyze_ticks` result (both return shapes
carry the key; the zero-tick shape carries the empty list). -/
def TicksResult.markersList : TicksResult → List Ev
  | TicksResult.empty _ => []
  | TicksResult.full r => r.markers

/-- The `marker_count` entry of an `analyze_ticks` result. -/
def TicksResult.markerCount : TicksResult → Nat
  | TicksResult.empty k => k
  | TicksResult.full r => r.marker_count

/-- Embeds `analyze_ticks`: rows whose identifier begins with `"M"` become markers,
remaining non-sentinel rows become ticks.  With zero tick rows it returns
the early dict.  Otherwise it filters intervals through the validity
window (parse failures skipped silently) and builds marker tuples with
unguarded `float(...)` on `timestamp_ms` / `duration_ms`. -/
def analyzeTicks (rows : List TickRow) : Except String TicksResult :=
  let markerRows := rows.filter (fun r => isMarkerId r.tick_num)
  let tickRows := rows.filter (fun r => isTickRowId r.tick_num)
  if tickRows.isEmpty then Except.ok (TicksResult.empty markerRows.length)
  else
    let intervals := tickIntervals rows
    let good := intervals.filter (fun i => tickGood i)
    match mapPy (fun m =>
        match pyFloat m.timestamp_ms with
        | Except.error e => Except.error e
        | Except.ok ts =>
          match pyFloat m.duration_ms with
          | Except.error e => Except.error e
          | Except.ok du => Except.ok (Ev.mk m.tick_num ts du)) markerRows with
    | Except.error e => Except.error e
    | Except.ok mks =>
      Except.ok (TicksResult.full
        { tick_count := tickRows.length
          marker_count := markerRows.length
          good_interval_pct :=
            if intervals.isEmpty then 0 else 100 * (good.length : Rat) / (intervals.length : Rat)
          mean_interval_ms :=
            if intervals.isEmpty then 0 else intervals.sum / (intervals.length : Rat)
          markers := mks })

/-- The dict `analyze_markers` returns. -/
structure MarkersResult where
  count : Nat
  markers : List Ev
deriving DecidableEq, Repr

/-- Embeds `analyze_markers`: keeps rows whose identifier begins with `"M"` and
builds marker tuples with unguarded `float(...)`. -/
def analyzeMarkers (rows : List MarkerRow) : Except String MarkersResult :=
  let ms := rows.filter (fun r => isMarkerId r.marker_num)
  match mapPy (fun m =>
      match pyFloat m.timestamp_ms with
      | Except.error e => Except.error e
      | Except.ok ts =>
        match pyFloat m.duration_ms with
        | Except.error e => Except.error e
        | Except.ok du => Except.ok (Ev.mk m.marker_num ts du)) ms with
  | Except.error e => Except.error e
  | Except.ok lst => Except.ok { count := ms.length, markers := lst }

/-- The SNR sample list of `analyze_channel`: the guarded
`float(snr_db)` appends, parse failures swallowed by `except: pass`. -/
def snrValues (rows : List ChannelRow) : List Rat :=
  rows.filterMap (fun r => parseFloat r.snr_db)

/-- The quality tally of `analyze_channel`: the `quality_counts[...] += 1`
runs before the `float(snr_db)` conversion inside the same `try` body, so
every row's label is counted even when its SNR fails to parse. -/
def qualityCounts (rows : List ChannelRow) : List (String × Nat) :=
  countLabels (rows.map (fun r => r.quality))

/-- Python `min` over a nonempty list, with the script's `if snr_values else 0`
guard folded in. -/
def minOr0 (l : List Rat) : Rat :=
  match l with
  | [] => 0
  | x :: xs => xs.foldl min x

/-- Python `max` over a nonempty list, with the `if snr_values else 0`
guard folded in. -/
def maxOr0 (l : List Rat) : Rat :=
  match l with
  | [] => 0
  | x :: xs => xs.foldl max x

/-- The dict `analyze_channel` returns. -/
structure ChannelResult where
  quality : List (String × Nat)
  snr_min : Rat
  snr_max : Rat
  snr_avg : Rat
deriving DecidableEq, Repr

/-- Embeds `analyze_channel`: per-row quality tally and SNR extrema/mean over the
rows whose SNR parses (all three 0 on no valid samples). -/
def analyzeChannel (rows : List ChannelRow) : ChannelResult :=
  let snr := snrValues rows
  { quality := qualityCounts rows
    snr_min := minOr0 snr
    snr_max := maxOr0 snr
    snr_avg := if snr.isEmpty then 0 else snr.sum / (snr.length : Rat) }

/-- The dict `analyze_subcarrier` returns; `by_expected` maps an expected
label to its `(total, match)` counters, in dict insertion order. -/
structure SubResult where
  total : Nat
  matchCount : Nat
  match_pct : Rat
  by_expected : List (String × Nat × Nat)
deriving DecidableEq, Repr

/-- One loop iteration of `analyze_subcarrier` over the running
`(total, matches, by_expected)` state. -/
def subStep (acc : Nat × Nat × List (String × Nat × Nat)) (r : SubRow) :
    Nat × Nat × List (String × Nat × Nat) :=
  let be := updateAssoc r.expected (fun p => (p.1 + 1, p.2)) (0, 0) acc.2.2
  if r.matchv = "YES" then
    (acc.1 + 1, acc.2.1 + 1, updateAssoc r.expected (fun p => (p.1, p.2 + 1)) (0, 0) be)
  else
    (acc.1 + 1, acc.2.1, be)

/-- Embeds `analyze_subcarrier`: counts rows and `"YES"` matches overall and per
expected-value bucket. -/
def analyzeSubcarrier (rows : List SubRow) : SubResult :=
  let st := rows.foldl subStep (0, 0, [])
  { total := st.1
    matchCount := st.2.1
    match_pct := if st.1 = 0 then 0 else 100 * (st.2.1 : Rat) / (st.1 : Rat)
    by_expected := st.2.2 }

/-! ### Report assembly: the section printing of `print_report`

Dict-key accesses that the early-return shapes do not provide are modelled
as `Except.error` (`KeyError` in Python). -/

/-- The sync section of `print_report`: on the zero-row dict the
`sync['first_locked']` access raises `KeyError` (the key exists only in
the full dict). -/
def syncSection : SyncResult → Except String Unit
  | SyncResult.empty => Except.error "KeyError: first_locked"
  | SyncResult.full _ => Except.ok ()

/-- The tick section of `print_report`: on the zero-tick dict the
`ticks['good_interval_pct']` access raises `KeyError`. -/
def tickSection : TicksResult → Except String Unit
  | TicksResult.empty _ => Except.error "KeyError: good_interval_pct"
  | TicksResult.full _ => Except.ok ()

/-- The correlation-section condition of `print_report`:
`ticks and markers and ticks['markers'] and markers['markers']` with both
analyzer dicts present (dicts are truthy, lists are truthy iff nonempty). -/
def corrEnabled (t : TicksResult) (m : MarkersResult) : Bool :=
  !t.markersList.isEmpty && !m.markers.isEmpty

/-! ### Correlation Matcher -/

/-- Insertion step of a stable ascending sort by timestamp, modelling
Python `sorted(key=lambda x: x[1])`. -/
def insertByTime (x : Ev) : List Ev → List Ev
  | [] => [x]
  | y :: ys => if x.time ≤ y.time then x :: y :: ys else y :: insertByTime x ys

/-- Stable ascending sort by timestamp. -/
def sortByTime : List Ev → List Ev
  | [] => []
  | x :: xs => insertByTime x (sortByTime xs)

/-- The inner scan of the correlation loop: walk the enumerated marker
list, skip indices already in `used`, and keep the first candidate whose
absolute timestamp delta strictly improves on the best so far (the best
delta starts at the 1500 ms window). -/
def scanBest (t : Rat) (used : List Nat) :
    List (Nat × Ev) → Option (Nat × Ev) → Rat → Option (Nat × Ev) × Rat
  | [], best, bestd => (best, bestd)
  | (i, m) :: rest, best, bestd =>
    if i ∈ used then scanBest t used rest best bestd
    else if |t - m.time| < bestd then scanBest t used rest (some (i, m)) (|t - m.time|)
    else scanBest t used rest best bestd

/-- The `best_match`/`best_delta` pair after scanning the whole marker list for one
tick-marker at time `t`. -/
def findBest (t : Rat) (ms : List (Nat × Ev)) (used : List Nat) : Option (Nat × Ev) × Rat :=
  scanBest t used ms none 1500

/-- Running state of the correlation loop.  `pairs` records each match as
(position of the tick-marker in the sorted tick list, index of the marker
in the sorted marker list, delta). -/
structure CorrState where
  correlated : Nat
  tick_only : Nat
  used : List Nat
  pairs : List (Nat × Nat × Rat)
deriving DecidableEq, Repr

/-- One iteration of the correlation loop for the tick-marker at position
`tp.1` and time `tp.2.time`: a found candidate is added to the used set
(`set.add`) and counted correlated; otherwise the tick is counted
tick-only. -/
def corrStep (ms : List (Nat × Ev)) (st : CorrState) (tp : Nat × Ev) : CorrState :=
  match findBest tp.2.time ms st.used with
  | (some (i, _), d) =>
    { correlated := st.correlated + 1
      tick_only := st.tick_only
      used := if i ∈ st.used then st.used else i :: st.used
      pairs := st.pairs ++ [(tp.1, i, d)] }
  | (none, _) => { st with tick_only := st.tick_only + 1 }

/-- The summary the correlation check prints. -/
structure CorrResult where
  correlated : Nat
  tick_only : Nat
  marker_only : Nat
  pairs : List (Nat × Nat × Rat)
deriving DecidableEq, Repr

/-- The correlation check of `print_report`: sort both event lists by
timestamp, run the greedy loop over the tick-markers, and count unmatched
markers as `len(marker_list) - len(used_markers)`. -/
def runCorrelation (tickMarkers markerMarkers : List Ev) : CorrResult :=
  let tickList := sortByTime tickMarkers
  let markerList := sortByTime markerMarkers
  let ems := markerList.enum
  let st := tickList.enum.foldl (fun st tp => corrStep ems st tp) (CorrState.mk 0 0 [] [])
  { correlated := st.correlated
    tick_only := st.tick_only
    marker_only := markerList.length - st.used.length
    pairs := st.pairs }

/-! ### Log Locator -/

/-- A directory entry: file name and modification time. -/
structure FileMeta where
  name : String
  mtime : Rat
deriving DecidableEq, Repr

/-- The five log categories. -/
inductive Cat
  | sync
  | ticks
  | markers
  | subcarrier
  | channel
deriving DecidableEq, Repr

/-- Filename classification of `print_report`: only `.csv` files, assigned
to the first matching substring in the fixed order
sync, ticks, markers, subcarrier, channel. -/
def classify (f : String) : Option Cat :=
  if !strEndsWith f ".csv" then none
  else if strContains f "sync" then some Cat.sync
  else if strContains f "ticks" then some Cat.ticks
  else if strContains f "markers" then some Cat.markers
  else if strContains f "subcarrier" then some Cat.subcarrier
  else if strContains f "channel" then some Cat.channel
  else none

/-- The `candidates[cat]` list built by scanning the directory listing in
order: `(mtime, path)` per matching file.  The directory base path is
fixed per run, so paths are represented by the file names (joining every
name to one base preserves their relative lexicographic order). -/
def candidatesFor (listing : List FileMeta) (c : Cat) : List (Rat × String) :=
  (listing.filter (fun fm => classify fm.name = some c)).map (fun fm => (fm.mtime, fm.name))

/-- The comparison under which `candidates[key].sort(reverse=True)` orders
its `(mtime, path)` tuples descending: `candGe a b` says `a` sorts no
later than `b`, i.e. `a`'s tuple is lexicographically at least `b`'s. -/
def candGe (a b : Rat × String) : Bool :=
  if b.1 < a.1 then true
  else if b.1 = a.1 then strLe b.2 a.2
  else false

/-- Insertion step of the descending tuple sort. -/
def insertDesc (x : Rat × String) : List (Rat × String) → List (Rat × String)
  | [] => [x]
  | y :: ys => if candGe x y then x :: y :: ys else y :: insertDesc x ys

/-- Descending sort of the candidate list, modelling
`candidates[key].sort(reverse=True)`. -/
def sortDesc : List (Rat × String) → List (Rat × String)
  | [] => []
  | x :: xs => insertDesc x (sortDesc xs)

/-- The value `candidates[key][0]` after the descending sort (or `None` when the
category has no candidate). -/
def pickLatest (cands : List (Rat × String)) : Option (Rat × String) :=
  (sortDesc cands).head?

/-- The file `print_report` selects for a category from a directory
listing. -/
def locate (listing : List FileMeta) (c : Cat) : Option String :=
  (pickLatest (candidatesFor listing c)).map (fun p => p.2)

/-! ### The engine run -/

/-- The structured content of the printed report: one entry per section,
present only when its source file was found, plus the correlation summary
when its condition held. -/
structure Report where
  sync : Option SyncResult
  ticks : Option TicksResult
  markers : Option MarkersResult
  correlation : Option CorrResult
  channel : Option ChannelResult
  sub : Option SubResult
deriving DecidableEq, Repr

/-- The engine on located per-category row lists (`none` = file missing):
analyze and print each section in the source's order — sync, ticks,
markers, correlation, channel, subcarrier — an `Except.error` being an
uncaught exception that aborts the whole run with a nonzero exit. -/
def runReport (syncRows : Option (List SyncRow)) (tickRows : Option (List TickRow))
    (markerRows : Option (List MarkerRow)) (channelRows : Option (List ChannelRow))
    (subRows : Option (List SubRow)) : Except String Report :=
  match (match syncRows with
         | none => Except.ok none
         | some rs => match analyzeSync rs with
           | Except.error e => Except.error e
           | Except.ok s => match syncSection s with
             | Except.error e => Except.error e
             | Except.ok _ => Except.ok (some s)) with
  | Except.error e => Except.error e
  | Except.ok sync? =>
    match (match tickRows with
           | none => Except.ok none
           | some rs => match analyzeTicks rs with
             | Except.error e => Except.error e
             | Except.ok t => match tickSection t with
               | Except.error e => Except.error e
               | Except.ok _ => Except.ok (some t)) with
    | Except.error e => Except.error e
    | Except.ok ticks? =>
      match (match markerRows with
             | none => Except.ok none
             | some rs => match analyzeMarkers rs with
               | Except.error e => Except.error e
               | Except.ok m => Except.ok (some m)) with
      | Except.error e => Except.error e
      | Except.ok markers? =>
        let corr? :=
          match ticks?, markers? with
          | some t, some m =>
            if corrEnabled t m then some (runCorrelation t.markersList m.markers) else none
          | _, _ => none
        Except.ok
          { sync := sync?
            ticks := ticks?
            markers := markers?
            correlation := corr?
            channel := channelRows.map analyzeChannel
            sub := subRows.map analyzeSubcarrier }

/-! ### Basic lemmas -/

theorem mapPy_error_of_mem {α β : Type} (f : α → Except String β) (l : List α)
    (hx : ∃ x ∈ l, ∃ e, f x = Except.error e) : ∃ e, mapPy f l = Except.error e := by
  induction l with
  | nil => simp at hx
  | cons a as ih =>
    rcases hx with ⟨x, hmem, e, hfx⟩
    rcases List.mem_cons.mp hmem with h | h
    · subst h
      exact ⟨e, by simp [mapPy, hfx]⟩
    · cases hfa : f a with
      | error e2 => exact ⟨e2, by simp [mapPy, hfa]⟩
      | ok y =>
        rcases ih ⟨x, h, e, hfx⟩ with ⟨e3, hmap⟩
        exact ⟨e3, by simp [mapPy, hfa, hmap]⟩

/-! ### Claim C1 -/

/-- C1.  The claim says tick-log rows whose identifier equals `"META"` or
`"GAIN"` are ignored entirely.  The code checks `startswith('M')` first, so
a `"META"` row is classified as a minute-marker (here: `marker_count = 1`
on a log whose only row is a META row), while only `"GAIN"` is ignored
(`marker_count = 0`, `tick_count = 0`).  The `'META'` entry of the
sentinel tuple in the `elif` is unreachable, so the code contradicts its
own exclusion list: the spec states the evident intent. -/
theorem meta_row_counted_as_marker :
    analyzeTicks [TickRow.mk "META" "980" "1000" "5"] = Except.ok (TicksResult.empty 1)
    ∧ (TicksResult.empty 1).markerCount = 1
    ∧ analyzeTicks [TickRow.mk "GAIN" "980" "1000" "5"] = Except.ok (TicksResult.empty 0)
    ∧ isMarkerId "META" = true := by
  exact ⟨rfl, rfl, rfl, rfl⟩

/-! ### Claim C9 -/

/-- C9.  A parsed tick interval is valid exactly when it lies in the open
interval (500, 10000) ms — the boundaries 500 and 10000 excluded — and a
valid interval is good exactly when it lies in the closed interval
[900, 1100] ms, the boundaries included; checked both on the window
predicates `analyzeTicks` filters with and on the analyzer itself at the
four boundary values. -/
theorem tick_interval_boundaries :
    (∀ v : Rat, tickValid v = true ↔ 500 < v ∧ v < 10000)
    ∧ (∀ v : Rat, tickGood v = true ↔ 900 ≤ v ∧ v ≤ 1100)
    ∧ tickValid 500 = false ∧ tickValid 10000 = false
    ∧ tickGood 900 = true ∧ tickGood 1100 = true
    ∧ tickIntervals [TickRow.mk "1" "500" "0" "1"] = []
    ∧ tickIntervals [TickRow.mk "1" "10000" "0" "1"] = []
    ∧ tickIntervals [TickRow.mk "1" "900" "0" "1"] = [900]
    ∧ tickIntervals [TickRow.mk "1" "1100" "0" "1"] = [1100]
    ∧ (tickIntervals [TickRow.mk "1" "900" "0" "1"]).filter (fun i => tickGood i) = [900]
    ∧ (tickIntervals [TickRow.mk "1" "1100" "0" "1"]).filter (fun i => tickGood i) = [1100] := by
  refine ⟨fun v => ?_, fun v => ?_, ?_, ?_, ?_, ?_, ?_, ?_, ?_, ?_, ?_, ?_⟩
  · simp [tickValid]
  · simp [tickGood]
  · norm_num [tickValid]
  · norm_num [tickValid]
  · norm_num [tickGood]
  · norm_num [tickGood]
  · simp +decide [tickIntervals, parseFloat, natOfDigits, tickValid, isTickRowId, isMarkerId,
      isSentinelId]
  · simp +decide [tickIntervals, parseFloat, natOfDigits, tickValid, isTickRowId, isMarkerId,
      isSentinelId]
  · simp +decide [tickIntervals, parseFloat, natOfDigits, tickValid, isTickRowId, isMarkerId,
      isSentinelId]
  · simp +decide [tickIntervals, parseFloat, natOfDigits, tickValid, isTickRowId, isMarkerId,
      isSentinelId]
  · simp +decide [tickIntervals, parseFloat, natOfDigits, tickValid, tickGood, isTickRowId,
      isMarkerId, isSentinelId]
  · simp +decide [tickIntervals, parseFloat, natOfDigits, tickValid, tickGood, isTickRowId,
      isMarkerId, isSentinelId]

/-! ### Claim C5 -/

/-- C5 counterexample.  The claim says a row with an unparsable numeric
field contributes to no statistic of its analyzer.  In the channel
analyzer the `quality_counts` increment runs before the failing
`float(snr_db)` inside the same `try`, so the row still contributes its
quality label to the histogram. -/
theorem channel_bad_snr_still_tallied :
    parseFloat "notanumber" = none
    ∧ (analyzeChannel [ChannelRow.mk "GOOD" "notanumber"]).quality = [("GOOD", 1)]
    ∧ (analyzeChannel [ChannelRow.mk "GOOD" "notanumber"]).quality ≠ [] := by
  exact ⟨rfl, rfl, by decide⟩

/-- C5 amended.  A row with an unparsable numeric field is skipped
silently only where the source guards the conversion, and only from the
statistics computed after the conversion: in the channel analyzer the row
is dropped from the SNR samples but its quality label is still tallied;
in the tick analyzer a tick row with unparsable `interval_ms` is dropped
from the interval list (but still counted as a tick); in the sync
analyzer the conversion is unguarded and the whole run aborts instead. -/
theorem unparsable_row_handling
    (rows : List ChannelRow) (r : ChannelRow) (hr : parseFloat r.snr_db = none)
    (trows : List TickRow) (t : TickRow) (ht : isTickRowId t.tick_num = true)
    (hti : parseFloat t.interval_ms = none)
    (srows : List SyncRow) (hs : ∃ s ∈ srows, parseFloat s.interval_sec = none) :
    snrValues (rows ++ [r]) = snrValues rows
    ∧ qualityCounts (rows ++ [r]) = bump (qualityCounts rows) r.quality
    ∧ tickIntervals (trows ++ [t]) = tickIntervals trows
    ∧ (trows ++ [t]).countP (fun x => isTickRowId x.tick_num) =
        trows.countP (fun x => isTickRowId x.tick_num) + 1
    ∧ ∃ e, analyzeSync (srows ++ [SyncRow.mk "S" "0" "0"]) = Except.error e := by
  refine ⟨?_, ?_, ?_, ?_, ?_⟩
  · simp [snrValues, hr]
  · simp [qualityCounts, countLabels, bump]
  · simp [tickIntervals, List.filter_append, List.filterMap_append, ht, hti]
  · simp [List.countP_append, ht]
  · rcases hs with ⟨s, hmem, hparse⟩
    have herr : ∃ e, mapPy (fun x => pyFloat x.interval_sec) (srows ++ [SyncRow.mk "S" "0" "0"])
        = Except.error e := by
      refine mapPy_error_of_mem _ _ ⟨s, by simp [hmem], ?_⟩
      exact ⟨"ValueError: could not convert string to float: " ++ s.interval_sec,
        by simp [pyFloat, hparse]⟩
    rcases herr with ⟨e, hmap⟩
    refine ⟨e, ?_⟩
    have hne : ¬(srows ++ [SyncRow.mk "S" "0" "0"]).isEmpty = true := by
      simp
    simp [analyzeSync, hne, hmap]

/-- C5 amended, witness. -/
theorem unparsable_row_handling_witness :
    snrValues ([] ++ [ChannelRow.mk "GOOD" "x"]) = snrValues []
    ∧ qualityCounts ([] ++ [ChannelRow.mk "GOOD" "x"]) = bump (qualityCounts []) "GOOD"
    ∧ tickIntervals ([] ++ [TickRow.mk "7" "y" "0" "1"]) = tickIntervals []
    ∧ ([] ++ [TickRow.mk "7" "y" "0" "1"]).countP (fun x : TickRow => isTickRowId x.tick_num) =
        List.countP (fun x : TickRow => isTickRowId x.tick_num) [] + 1
    ∧ ∃ e, analyzeSync ([SyncRow.mk "LOCKED" "z" "0"] ++ [SyncRow.mk "S" "0" "0"])
        = Except.error e :=
  unparsable_row_handling [] (ChannelRow.mk "GOOD" "x") rfl [] (TickRow.mk "7" "y" "0" "1")
    rfl rfl [SyncRow.mk "LOCKED" "z" "0"] ⟨SyncRow.mk "LOCKED" "z" "0", by simp, rfl⟩

/-! ### Claim C2 -/

/-- C2 counterexample.  The claim says the engine never aborts, and in
particular that a present sync log with zero data rows, or a sync row
with a non-numeric `interval_sec`, degrades the report.  Both inputs
abort the run: the zero-row sync dict lacks the `first_locked` key the
report reader accesses, and `analyze_sync`'s `float(interval_sec)` is
unguarded. -/
theorem engine_aborts_on_degenerate_sync :
    runReport (some []) none none none none = Except.error "KeyError: first_locked"
    ∧ runReport (some [SyncRow.mk "LOCKED" "oops" "0"]) none none none none
        = Except.error "ValueError: could not convert string to float: oops" := by
  exact ⟨rfl, rfl⟩

/-- C2 amended.  Missing log files degrade the report (their sections are
simply absent) and the channel and subcarrier analyzers never abort on
any input rows; but a present sync log with zero data rows raises
`KeyError`, a non-numeric sync field raises `ValueError`, and a present
tick log with zero tick rows raises `KeyError`: those runs abort instead
of degrading. -/
theorem graceful_and_fatal_inputs :
    (∀ ch : Option (List ChannelRow), ∀ sub : Option (List SubRow),
      runReport none none none ch sub =
        Except.ok (Report.mk none none none none (ch.map analyzeChannel)
          (sub.map analyzeSubcarrier)))
    ∧ (∃ e, runReport (some []) none none none none = Except.error e)
    ∧ (∃ e, runReport (some [SyncRow.mk "LOCKED" "oops" "0"]) none none none none
        = Except.error e)
    ∧ (∃ e, runReport none (some [TickRow.mk "M1" "" "1000" "10"]) none none none
        = Except.error e) := by
  refine ⟨fun ch sub => rfl, ⟨_, rfl⟩, ⟨_, rfl⟩, ⟨_, rfl⟩⟩

/-! ### Claim C4 -/

/-- C4 counterexample.  The claim says a tick log with marker rows but
zero tick rows still satisfies the tick side of the correlation
condition.  In the code, the zero-tick early return carries
`markers = []`, so the condition `ticks['markers']` is falsy — and the
run in fact aborts at the tick section before reaching the correlation
check. -/
theorem zero_tick_log_fails_tick_side :
    analyzeTicks [TickRow.mk "M1" "" "1000" "10"] = Except.ok (TicksResult.empty 1)
    ∧ (TicksResult.empty 1).markersList = []
    ∧ corrEnabled (TicksResult.empty 1) (MarkersResult.mk 1 [Ev.mk "M1" 1050 8]) = false
    ∧ runReport none (some [TickRow.mk "M1" "" "1000" "10"])
        (some [MarkerRow.mk "M1" "1050" "8"]) none none
        = Except.error "KeyError: good_interval_pct" := by
  exact ⟨rfl, rfl, rfl, rfl⟩

/-- C4 amended.  In every run that completes, the Correlation section is
present exactly when the tick analyzer and the marker analyzer both
produced data and each carries at least one marker event in its marker
list; a tick log with marker rows but zero tick rows does not satisfy the
tick side, because the zero-tick return carries an empty marker list (and
such a run aborts before the correlation check anyway). -/
theorem correlation_presence (so : Option (List SyncRow)) (tko : Option (List TickRow))
    (mo : Option (List MarkerRow)) (co : Option (List ChannelRow)) (suo : Option (List SubRow))
    (r : Report) (h : runReport so tko mo co suo = Except.ok r) :
    (r.correlation.isSome = true ↔
      (∃ t, r.ticks = some t ∧ t.markersList ≠ []) ∧
      (∃ m, r.markers = some m ∧ m.markers ≠ [])) := by
  unfold runReport at h
  repeat' split at h
  all_goals first
    | exact Except.noConfusion h
    | (simp only [Except.ok.injEq] at h
       subst h
       simp_all [corrEnabled])

/-- C4 amended, witness. -/
theorem correlation_presence_witness :
    ((Report.mk none none none none none none).correlation.isSome = true ↔
      (∃ t, (Report.mk none none none none none none).ticks = some t ∧ t.markersList ≠ []) ∧
      (∃ m, (Report.mk none none none none none none).markers = some m ∧ m.markers ≠ [])) :=
  correlation_presence none none none none none (Report.mk none none none none none none) rfl

/-! ### Claim C3: locator order lemmas -/

theorem charListLe_refl (l : List Char) : charListLe l l = true := by
  induction l with
  | nil => rfl
  | cons x xs ih => simp [charListLe, ih]

theorem charListLe_total (a b : List Char) :
    charListLe a b = true ∨ charListLe b a = true := by
  induction a generalizing b with
  | nil => exact Or.inl rfl
  | cons x xs ih =>
    cases b with
    | nil => exact Or.inr rfl
    | cons y ys =>
      rcases Nat.lt_trichotomy x.toNat y.toNat with h | h | h
      · exact Or.inl (by simp [charListLe, h])
      · rcases ih ys with h2 | h2
        · exact Or.inl (by simp [charListLe, h, h2])
        · exact Or.inr (by simp [charListLe, h.symm, h2])
      · exact Or.inr (by simp [charListLe, h])

theorem charListLe_trans {a b c : List Char} (hab : charListLe a b = true)
    (hbc : charListLe b c = true) : charListLe a c = true := by
  induction a generalizing b c with
  | nil => rfl
  | cons x xs ih =>
    cases b with
    | nil => simp [charListLe] at hab
    | cons y ys =>
      cases c with
      | nil => simp [charListLe] at hbc
      | cons z zs =>
        simp only [charListLe] at hab hbc ⊢
        rcases Nat.lt_trichotomy x.toNat y.toNat with h1 | h1 | h1
        · rcases Nat.lt_trichotomy y.toNat z.toNat with h2 | h2 | h2
          · simp [h1.trans h2]
          · simp [h2 ▸ h1]
          · simp [h2, Nat.lt_asymm h2] at hbc
        · rcases Nat.lt_trichotomy y.toNat z.toNat with h2 | h2 | h2
          · simp [h1 ▸ h2]
          · have hxz : x.toNat = z.toNat := h1.trans h2
            simp only [h1, lt_irrefl, if_false, Nat.lt_irrefl] at hab
            simp only [h2, lt_irrefl, if_false, Nat.lt_irrefl] at hbc
            simp [hxz, lt_irrefl, ih hab hbc]
          · simp [h2, Nat.lt_asymm h2] at hbc
        · simp [h1, Nat.lt_asymm h1] at hab

theorem charListLe_antisymm {a b : List Char} (hab : charListLe a b = true)
    (hba : charListLe b a = true) : a = b := by
  induction a generalizing b with
  | nil =>
    cases b with
    | nil => rfl
    | cons y ys => simp [charListLe] at hba
  | cons x xs ih =>
    cases b with
    | nil => simp [charListLe] at hab
    | cons y ys =>
      simp only [charListLe] at hab hba
      rcases Nat.lt_trichotomy x.toNat y.toNat with h | h | h
      · simp [h, Nat.lt_asymm h] at hba
      · have hxy : x = y := Char.eq_of_val_eq (UInt32.ext h)
        simp only [h, lt_irrefl, if_false] at hab hba
        exact hxy ▸ congrArg (List.cons x) (ih hab hba)
      · simp [h, Nat.lt_asymm h] at hab

theorem candGe_iff (a b : Rat × String) :
    candGe a b = true ↔ b.1 < a.1 ∨ (b.1 = a.1 ∧ strLe b.2 a.2 = true) := by
  unfold candGe
  split
  · rename_i hlt
    simp [hlt]
  · rename_i hnlt
    split
    · rename_i heq
      simp [heq, hnlt]
    · rename_i hne
      simp [hnlt, hne]

theorem candGe_refl (a : Rat × String) : candGe a a = true := by
  rw [candGe_iff]
  exact Or.inr ⟨rfl, charListLe_refl _⟩

theorem candGe_total (a b : Rat × String) : candGe a b = true ∨ candGe b a = true := by
  rw [candGe_iff, candGe_iff]
  rcases lt_trichotomy a.1 b.1 with h | h | h
  · exact Or.inr (Or.inl h)
  · rcases charListLe_total b.2.toList a.2.toList with h2 | h2
    · exact Or.inl (Or.inr ⟨h.symm, h2⟩)
    · exact Or.inr (Or.inr ⟨h, h2⟩)
  · exact Or.inl (Or.inl h)

theorem candGe_trans {a b c : Rat × String} (hab : candGe a b = true)
    (hbc : candGe b c = true) : candGe a c = true := by
  rw [candGe_iff] at hab hbc ⊢
  rcases hab with h1 | ⟨h1, h1s⟩
  · rcases hbc with h2 | ⟨h2, _⟩
    · exact Or.inl (h2.trans h1)
    · exact Or.inl (h2 ▸ h1)
  · rcases hbc with h2 | ⟨h2, h2s⟩
    · exact Or.inl (h1 ▸ h2)
    · exact Or.inr ⟨h2.trans h1, charListLe_trans h2s h1s⟩

theorem candGe_antisymm {a b : Rat × String} (hab : candGe a b = true)
    (hba : candGe b a = true) : a = b := by
  rw [candGe_iff] at hab hba
  rcases hab with h1 | ⟨h1, h1s⟩
  · rcases hba with h2 | ⟨h2, _⟩
    · exact absurd h2 (lt_asymm h1)
    · exact absurd h1 (h2 ▸ lt_irrefl _)
  · rcases hba with h2 | ⟨h2, h2s⟩
    · exact absurd h2 (h1 ▸ lt_irrefl _)
    · have hs : a.2 = b.2 := String.ext (charListLe_antisymm h2s h1s)
      exact Prod.ext h1.symm hs

theorem insertDesc_perm (x : Rat × String) (l : List (Rat × String)) :
    (insertDesc x l).Perm (x :: l) := by
  induction l with
  | nil => simp [insertDesc]
  | cons y ys ih =>
    unfold insertDesc
    split
    · exact List.Perm.refl _
    · exact (List.Perm.cons y ih).trans (List.Perm.swap x y ys)

theorem sortDesc_perm (l : List (Rat × String)) : (sortDesc l).Perm l := by
  induction l with
  | nil => simp [sortDesc]
  | cons x xs ih =>
    exact (insertDesc_perm x (sortDesc xs)).trans (List.Perm.cons x ih)

theorem insertDesc_sorted (x : Rat × String) (l : List (Rat × String))
    (h : l.Pairwise (fun a b => candGe a b = true)) :
    (insertDesc x l).Pairwise (fun a b => candGe a b = true) := by
  induction l with
  | nil => simp [insertDesc]
  | cons y ys ih =>
    rcases List.pairwise_cons.mp h with ⟨hy, hys⟩
    unfold insertDesc
    split
    · rename_i hxy
      refine List.pairwise_cons.mpr ⟨?_, h⟩
      intro z hz
      rcases List.mem_cons.mp hz with rfl | hz
      · exact hxy
      · exact candGe_trans hxy (hy z hz)
    · rename_i hxy
      have hyx : candGe y x = true := by
        rcases candGe_total x y with h1 | h1
        · exact absurd h1 hxy
        · exact h1
      refine List.pairwise_cons.mpr ⟨?_, ih hys⟩
      intro z hz
      have hz2 := (insertDesc_perm x ys).mem_iff.mp hz
      rcases List.mem_cons.mp hz2 with rfl | hz2
      · exact hyx
      · exact hy z hz2

theorem sortDesc_sorted (l : List (Rat × String)) :
    (sortDesc l).Pairwise (fun a b => candGe a b = true) := by
  induction l with
  | nil => simp [sortDesc]
  | cons x xs ih => exact insertDesc_sorted x (sortDesc xs) ih

theorem pickLatest_mem_and_ge (cands : List (Rat × String)) (p : Rat × String)
    (h : pickLatest cands = some p) :
    p ∈ cands ∧ ∀ q ∈ cands, candGe p q = true := by
  unfold pickLatest at h
  cases hs : sortDesc cands with
  | nil => rw [hs] at h; simp at h
  | cons a rest =>
    rw [hs] at h
    simp only [List.head?] at h
    obtain rfl : a = p := by injection h
    have hperm := sortDesc_perm cands
    rw [hs] at hperm
    constructor
    · exact hperm.subset (List.mem_cons_self a rest)
    · intro q hq
      have hq2 : q ∈ a :: rest := hperm.symm.subset hq
      rcases List.mem_cons.mp hq2 with rfl | hq2
      · exact candGe_refl q
      · have hsorted := sortDesc_sorted cands
        rw [hs] at hsorted
        exact (List.pairwise_cons.mp hsorted).1 q hq2

/-- C3 counterexample.  Two sync candidates with equal modification time:
the code's `sort(reverse=True)` reverses the path comparison as well, so
the selected file is the lexicographically greatest path, not the first
in lexicographic order as the claim says. -/
theorem mtime_tie_selects_lex_greatest :
    locate [FileMeta.mk "a_sync.csv" 5, FileMeta.mk "b_sync.csv" 5] Cat.sync
      = some "b_sync.csv"
    ∧ classify "a_sync.csv" = some Cat.sync
    ∧ classify "b_sync.csv" = some Cat.sync
    ∧ strLe "a_sync.csv" "b_sync.csv" = true
    ∧ ("a_sync.csv" : String) ≠ "b_sync.csv" := by
  exact ⟨rfl, rfl, rfl, rfl, by decide⟩

/-- C3 amended.  For every category the locator selects the candidate
with the latest modification timestamp, and among candidates sharing that
timestamp the one that comes last (greatest) in lexicographic path order. -/
theorem locate_picks_latest (listing : List FileMeta) (c : Cat) (p : Rat × String)
    (h : pickLatest (candidatesFor listing c) = some p) :
    p ∈ candidatesFor listing c
    ∧ (∀ q ∈ candidatesFor listing c, q.1 < p.1 ∨ (q.1 = p.1 ∧ strLe q.2 p.2 = true))
    ∧ locate listing c = some p.2 := by
  rcases pickLatest_mem_and_ge _ _ h with ⟨hmem, hge⟩
  refine ⟨hmem, ?_, ?_⟩
  · intro q hq
    exact (candGe_iff p q).mp (hge q hq)
  · unfold locate
    rw [h]
    rfl

/-- C3 amended, witness. -/
theorem locate_picks_latest_witness :
    ((5 : Rat), "b_sync.csv") ∈
      candidatesFor [FileMeta.mk "a_sync.csv" 5, FileMeta.mk "b_sync.csv" 5] Cat.sync
    ∧ (∀ q ∈ candidatesFor [FileMeta.mk "a_sync.csv" 5, FileMeta.mk "b_sync.csv" 5] Cat.sync,
        q.1 < (5 : Rat) ∨ (q.1 = (5 : Rat) ∧ strLe q.2 "b_sync.csv" = true))
    ∧ locate [FileMeta.mk "a_sync.csv" 5, FileMeta.mk "b_sync.csv" 5] Cat.sync
        = some "b_sync.csv" :=
  locate_picks_latest [FileMeta.mk "a_sync.csv" 5, FileMeta.mk "b_sync.csv" 5] Cat.sync
    (5, "b_sync.csv") rfl

/-! ### Correlation Matcher: the inner scan -/

theorem enumFrom_pairwise_fst_lt {α : Type} (l : List α) (n : Nat) :
    (List.enumFrom n l).Pairwise (fun a b => a.1 < b.1) := by
  induction l generalizing n with
  | nil => simp
  | cons x xs ih =>
    rw [List.enumFrom_cons]
    refine List.pairwise_cons.mpr ⟨?_, ih (n + 1)⟩
    intro p hp
    obtain ⟨i, a⟩ := p
    have hb := List.mem_enumFrom hp
    exact Nat.lt_of_lt_of_le (Nat.lt_succ_self n) hb.1

theorem enumFrom_fst_lt_length {α : Type} (l : List α) (n : Nat) :
    ∀ p ∈ List.enumFrom n l, p.1 < n + l.length := by
  intro p hp
  obtain ⟨i, a⟩ := p
  exact (List.mem_enumFrom hp).2.1

theorem enum_length {α : Type} (l : List α) : l.enum.length = l.length :=
  List.enumFrom_length

/-- Full behaviour of the scanning loop, generalized over the running
best/best-delta accumulator. -/
theorem scanBest_spec (t : Rat) (used : List Nat) :
    ∀ (rest : List (Nat × Ev)) (best : Option (Nat × Ev)) (bestd : Rat),
    (best = none → bestd = 1500) →
    (∀ i m, best = some (i, m) → i ∉ used ∧ |t - m.time| = bestd ∧ bestd < 1500 ∧
      ∀ jm ∈ rest, i < jm.1) →
    rest.Pairwise (fun a b => a.1 < b.1) →
    (((scanBest t used rest best bestd).1 = none →
        best = none ∧ (scanBest t used rest best bestd).2 = 1500 ∧
        ∀ jm ∈ rest, jm.1 ∉ used → 1500 ≤ |t - jm.2.time|)
    ∧ (∀ i m, (scanBest t used rest best bestd).1 = some (i, m) →
        i ∉ used ∧ (scanBest t used rest best bestd).2 = |t - m.time| ∧
        |t - m.time| < 1500 ∧
        ((best = some (i, m) ∧ |t - m.time| = bestd) ∨ ((i, m) ∈ rest ∧ |t - m.time| < bestd)) ∧
        ∀ jm ∈ rest, jm.1 ∉ used →
          |t - m.time| ≤ |t - jm.2.time| ∧ (|t - jm.2.time| = |t - m.time| → i ≤ jm.1))) := by
  intro rest
  induction rest with
  | nil =>
    intro best bestd hnone hbest _
    constructor
    · intro hres
      simp only [scanBest] at hres ⊢
      exact ⟨hres, hnone hres, by simp⟩
    · intro i m hres
      simp only [scanBest] at hres ⊢
      rcases hbest i m hres with ⟨h1, h2, h3, _⟩
      exact ⟨h1, h2.symm, h2 ▸ h3, Or.inl ⟨hres, h2⟩, by simp⟩
  | cons hd rest ih =>
    intro best bestd hnone hbest hpw
    obtain ⟨j0, m0⟩ := hd
    rcases List.pairwise_cons.mp hpw with ⟨hj0lt, hpw2⟩
    by_cases hj0 : j0 ∈ used
    · have hstep : scanBest t used ((j0, m0) :: rest) best bestd
          = scanBest t used rest best bestd := by
        simp [scanBest, hj0]
      have hbest2 : ∀ i m, best = some (i, m) → i ∉ used ∧ |t - m.time| = bestd ∧
          bestd < 1500 ∧ ∀ jm ∈ rest, i < jm.1 := by
        intro i m h
        rcases hbest i m h with ⟨h1, h2, h3, h4⟩
        exact ⟨h1, h2, h3, fun jm hjm => h4 jm (List.mem_cons_of_mem _ hjm)⟩
      rcases ih best bestd hnone hbest2 hpw2 with ⟨hN, hS⟩
      rw [hstep]
      constructor
      · intro hres
        rcases hN hres with ⟨hb, hd2, hall⟩
        refine ⟨hb, hd2, ?_⟩
        intro jm hjm hju
        rcases List.mem_cons.mp hjm with rfl | hjm2
        · exact absurd hj0 hju
        · exact hall jm hjm2 hju
      · intro i m hres
        rcases hS i m hres with ⟨h1, h2, h3, h4, h5⟩
        refine ⟨h1, h2, h3, ?_, ?_⟩
        · rcases h4 with h4 | ⟨h4a, h4b⟩
          · exact Or.inl h4
          · exact Or.inr ⟨List.mem_cons_of_mem _ h4a, h4b⟩
        · intro jm hjm hju
          rcases List.mem_cons.mp hjm with rfl | hjm2
          · exact absurd hj0 hju
          · exact h5 jm hjm2 hju
    · by_cases hlt : |t - m0.time| < bestd
      · have hstep : scanBest t used ((j0, m0) :: rest) best bestd
            = scanBest t used rest (some (j0, m0)) (|t - m0.time|) := by
          simp [scanBest, hj0, hlt]
        have hd0lt : |t - m0.time| < 1500 := by
          cases hb : best with
          | none => exact (hnone hb) ▸ hlt
          | some p =>
            rcases hbest p.1 p.2 (by rw [hb]) with ⟨_, _, h3, _⟩
            exact hlt.trans h3
        have hbest2 : ∀ i m, some (j0, m0) = some (i, m) → i ∉ used ∧
            |t - m.time| = |t - m0.time| ∧ |t - m0.time| < 1500 ∧ ∀ jm ∈ rest, i < jm.1 := by
          intro i m h
          injection h with h
          cases h
          exact ⟨hj0, rfl, hd0lt, hj0lt⟩
        rcases ih (some (j0, m0)) (|t - m0.time|) (fun h => absurd h (by simp)) hbest2 hpw2
          with ⟨hN, hS⟩
        rw [hstep]
        constructor
        · intro hres
          exact absurd (hN hres).1 (by simp)
        · intro i m hres
          rcases hS i m hres with ⟨h1, h2, h3, h4, h5⟩
          refine ⟨h1, h2, h3, ?_, ?_⟩
          · rcases h4 with ⟨h4a, h4b⟩ | ⟨h4a, h4b⟩
            · injection h4a with h4a
              exact Or.inr ⟨h4a ▸ List.mem_cons_self _ _, h4b ▸ hlt⟩
            · exact Or.inr ⟨List.mem_cons_of_mem _ h4a, h4b.trans hlt⟩
          · intro jm hjm hju
            rcases List.mem_cons.mp hjm with rfl | hjm2
            · constructor
              · rcases h4 with ⟨_, h4b⟩ | ⟨_, h4b⟩
                · exact le_of_eq h4b
                · exact le_of_lt h4b
              · intro hteq
                rcases h4 with ⟨h4a, _⟩ | ⟨_, h4b⟩
                · injection h4a with h4a
                  exact le_of_eq (congrArg Prod.fst h4a).symm
                · exact absurd (hteq ▸ h4b) (lt_irrefl _)
            · exact h5 jm hjm2 hju
      · have hstep : scanBest t used ((j0, m0) :: rest) best bestd
            = scanBest t used rest best bestd := by
          simp [scanBest, hj0, hlt]
        have hbest2 : ∀ i m, best = some (i, m) → i ∉ used ∧ |t - m.time| = bestd ∧
            bestd < 1500 ∧ ∀ jm ∈ rest, i < jm.1 := by
          intro i m h
          rcases hbest i m h with ⟨h1, h2, h3, h4⟩
          exact ⟨h1, h2, h3, fun jm hjm => h4 jm (List.mem_cons_of_mem _ hjm)⟩
        rcases ih best bestd hnone hbest2 hpw2 with ⟨hN, hS⟩
        rw [hstep]
        constructor
        · intro hres
          rcases hN hres with ⟨hb, hd2, hall⟩
          refine ⟨hb, hd2, ?_⟩
          intro jm hjm hju
          rcases List.mem_cons.mp hjm with rfl | hjm2
          · exact le_of_not_lt (fun hc => hlt ((hnone hb) ▸ hc))
          · exact hall jm hjm2 hju
        · intro i m hres
          rcases hS i m hres with ⟨h1, h2, h3, h4, h5⟩
          have hbd : bestd ≤ |t - m0.time| := le_of_not_lt hlt
          refine ⟨h1, h2, h3, ?_, ?_⟩
          · rcases h4 with h4 | ⟨h4a, h4b⟩
            · exact Or.inl h4
            · exact Or.inr ⟨List.mem_cons_of_mem _ h4a, h4b⟩
          · intro jm hjm hju
            rcases List.mem_cons.mp hjm with rfl | hjm2
            · constructor
              · rcases h4 with ⟨_, h4b⟩ | ⟨_, h4b⟩
                · exact h4b ▸ hbd
                · exact le_of_lt (lt_of_lt_of_le h4b hbd)
              · intro hteq
                rcases h4 with ⟨h4a, h4b⟩ | ⟨_, h4b⟩
                · exact le_of_lt ((hbest i m h4a).2.2.2 (j0, m0) (List.mem_cons_self _ _))
                · exact absurd (lt_of_lt_of_le h4b (hteq ▸ hbd)) (lt_irrefl _)
            · exact h5 jm hjm2 hju

/-- A successful scan returns an unused in-range marker whose delta is
below the window, minimal among unused markers, with ties resolved to the
smallest index. -/
theorem findBest_some_spec (t : Rat) (ms : List (Nat × Ev)) (used : List Nat)
    (hms : ms.Pairwise (fun a b => a.1 < b.1)) (i : Nat) (m : Ev)
    (hres : (findBest t ms used).1 = some (i, m)) :
    (i, m) ∈ ms ∧ i ∉ used ∧ (findBest t ms used).2 = |t - m.time| ∧ |t - m.time| < 1500 ∧
    ∀ jm ∈ ms, jm.1 ∉ used →
      |t - m.time| ≤ |t - jm.2.time| ∧ (|t - jm.2.time| = |t - m.time| → i ≤ jm.1) := by
  have hs := (scanBest_spec t used ms none 1500 (fun _ => rfl)
    (fun _ _ h => nomatch h) hms).2 i m hres
  rcases hs with ⟨h1, h2, h3, h4, h5⟩
  rcases h4 with ⟨h4a, _⟩ | ⟨h4a, _⟩
  · exact nomatch h4a
  · exact ⟨h4a, h1, h2, h3, h5⟩

/-- A failed scan means every unused marker is at least the window away. -/
theorem findBest_none_spec (t : Rat) (ms : List (Nat × Ev)) (used : List Nat)
    (hms : ms.Pairwise (fun a b => a.1 < b.1))
    (hres : (findBest t ms used).1 = none) :
    ∀ jm ∈ ms, jm.1 ∉ used → 1500 ≤ |t - jm.2.time| :=
  ((scanBest_spec t used ms none 1500 (fun _ => rfl)
    (fun _ _ h => nomatch h) hms).1 hres).2.2

/-- Conversely, when every unused marker is at least the window away the
scan finds nothing. -/
theorem findBest_none_of_far (t : Rat) (ms : List (Nat × Ev)) (used : List Nat)
    (hms : ms.Pairwise (fun a b => a.1 < b.1))
    (hfar : ∀ jm ∈ ms, jm.1 ∉ used → 1500 ≤ |t - jm.2.time|) :
    (findBest t ms used).1 = none := by
  cases hres : (findBest t ms used).1 with
  | none => rfl
  | some p =>
    obtain ⟨i, m⟩ := p
    rcases findBest_some_spec t ms used hms i m hres with ⟨h1, h2, _, h4, _⟩
    exact absurd h4 (not_lt.mpr (hfar (i, m) h1 h2))

theorem insertByTime_perm (x : Ev) (l : List Ev) : (insertByTime x l).Perm (x :: l) := by
  induction l with
  | nil => simp [insertByTime]
  | cons y ys ih =>
    unfold insertByTime
    split
    · exact List.Perm.refl _
    · exact (List.Perm.cons y ih).trans (List.Perm.swap x y ys)

theorem sortByTime_perm (l : List Ev) : (sortByTime l).Perm l := by
  induction l with
  | nil => simp [sortByTime]
  | cons x xs ih =>
    exact (insertByTime_perm x (sortByTime xs)).trans (List.Perm.cons x ih)

theorem insertByTime_sorted (x : Ev) (l : List Ev)
    (h : l.Pairwise (fun a b => a.time ≤ b.time)) :
    (insertByTime x l).Pairwise (fun a b => a.time ≤ b.time) := by
  induction l with
  | nil => simp [insertByTime]
  | cons y ys ih =>
    rcases List.pairwise_cons.mp h with ⟨hy, hys⟩
    unfold insertByTime
    split
    · rename_i hxy
      refine List.pairwise_cons.mpr ⟨?_, h⟩
      intro z hz
      rcases List.mem_cons.mp hz with rfl | hz
      · exact hxy
      · exact hxy.trans (hy z hz)
    · rename_i hxy
      have hyx : y.time ≤ x.time := le_of_not_le hxy
      refine List.pairwise_cons.mpr ⟨?_, ih hys⟩
      intro z hz
      have hz2 := (insertByTime_perm x ys).mem_iff.mp hz
      rcases List.mem_cons.mp hz2 with rfl | hz2
      · exact hyx
      · exact hy z hz2

theorem sortByTime_sorted (l : List Ev) :
    (sortByTime l).Pairwise (fun a b => a.time ≤ b.time) := by
  induction l with
  | nil => simp [sortByTime]
  | cons x xs ih => exact insertByTime_sorted x (sortByTime xs) ih

/-! ### Claim C6 -/

/-- C6.  The matcher processes tick-markers in ascending timestamp order;
for each tick-marker the scan over the sorted, enumerated marker list
returns (when it returns at all) an unused marker with absolute delta
strictly below 1500 ms that is minimal among all unused markers, ties in
the minimal delta resolving to the earliest position in the sorted marker
list; and when every unused marker is 1500 ms or more away the scan
returns nothing and the loop step counts the tick-marker tick-only. -/
theorem correlation_greedy_nearest (tms mms : List Ev) :
    (sortByTime tms).Pairwise (fun a b => a.time ≤ b.time)
    ∧ (∀ (used : List Nat) (tt : Rat) (i : Nat) (m : Ev),
        (findBest tt ((sortByTime mms).enum) used).1 = some (i, m) →
          (i, m) ∈ (sortByTime mms).enum ∧ i ∉ used ∧ |tt - m.time| < 1500 ∧
          ∀ jm ∈ (sortByTime mms).enum, jm.1 ∉ used →
            |tt - m.time| ≤ |tt - jm.2.time| ∧ (|tt - jm.2.time| = |tt - m.time| → i ≤ jm.1))
    ∧ (∀ (used : List Nat) (tt : Rat),
        (∀ jm ∈ (sortByTime mms).enum, jm.1 ∉ used → 1500 ≤ |tt - jm.2.time|) →
          (findBest tt ((sortByTime mms).enum) used).1 = none)
    ∧ (∀ (used : List Nat) (tt : Rat),
        (findBest tt ((sortByTime mms).enum) used).1 = none →
          ∀ jm ∈ (sortByTime mms).enum, jm.1 ∉ used → 1500 ≤ |tt - jm.2.time|)
    ∧ (∀ (st : CorrState) (tp : Nat × Ev),
        (findBest tp.2.time ((sortByTime mms).enum) st.used).1 = none →
          corrStep ((sortByTime mms).enum) st tp = { st with tick_only := st.tick_only + 1 }) := by
  have hpw : ((sortByTime mms).enum).Pairwise (fun a b => a.1 < b.1) :=
    enumFrom_pairwise_fst_lt (sortByTime mms) 0
  refine ⟨sortByTime_sorted tms, ?_, ?_, ?_, ?_⟩
  · intro used tt i m hres
    rcases findBest_some_spec tt _ used hpw i m hres with ⟨h1, h2, _, h4, h5⟩
    exact ⟨h1, h2, h4, h5⟩
  · intro used tt hfar
    exact findBest_none_of_far tt _ used hpw hfar
  · intro used tt hn
    exact findBest_none_spec tt _ used hpw hn
  · intro st tp hn
    unfold corrStep
    rw [show findBest tp.2.time ((sortByTime mms).enum) st.used
        = (none, (findBest tp.2.time ((sortByTime mms).enum) st.used).2) from Prod.ext hn rfl]

/-- C6, witness: the spec's own scenario.  Tick-marker at 62000 ms with
marker 0 (at 1050 ms) already used: the only unused marker sits 8000 ms
away, so the scan returns nothing. -/
theorem correlation_greedy_nearest_witness :
    (findBest 62000 ((sortByTime [Ev.mk "M1" 1050 8, Ev.mk "M2" 70000 8]).enum) [0]).1
      = none := by
  refine (correlation_greedy_nearest [] [Ev.mk "M1" 1050 8, Ev.mk "M2" 70000 8]).2.2.1
    [0] 62000 ?_
  intro jm hjm hju
  have hl : (sortByTime [Ev.mk "M1" 1050 8, Ev.mk "M2" 70000 8]).enum
      = [(0, Ev.mk "M1" 1050 8), (1, Ev.mk "M2" 70000 8)] := by
    norm_num [sortByTime, insertByTime, List.enum, List.enumFrom]
  rw [hl] at hjm
  rcases List.mem_cons.mp hjm with rfl | hjm2
  · exact absurd (List.mem_singleton_self 0) hju
  · rcases List.mem_cons.mp hjm2 with rfl | hjm3
    · norm_num
    · exact absurd hjm3 (List.not_mem_nil _)

/-! ### Claims C7 and C8: the loop invariant -/

/-- Invariant of the correlation loop after the first `n` sorted
tick-markers: tick positions recorded in `pairs` are strictly increasing
and below `n`; the used set lists exactly the matched marker indices,
without duplicates and in range; and the counters tally the processed
ticks. -/
def corrInvariant (ems : List (Nat × Ev)) (st : CorrState) (n : Nat) : Prop :=
  (st.pairs.map (fun p => p.1)).Pairwise (fun a b => a < b)
  ∧ (∀ x ∈ st.pairs.map (fun p => p.1), x < n)
  ∧ st.used = (st.pairs.map (fun p => p.2.1)).reverse
  ∧ st.used.Nodup
  ∧ (∀ i ∈ st.used, i < ems.length)
  ∧ st.correlated = st.used.length
  ∧ st.correlated + st.tick_only = n

theorem corrStep_inv (ems : List (Nat × Ev))
    (hpw : ems.Pairwise (fun a b => a.1 < b.1))
    (hlen : ∀ jm ∈ ems, jm.1 < ems.length)
    (st : CorrState) (n : Nat) (ev : Ev) (hinv : corrInvariant ems st n) :
    corrInvariant ems (corrStep ems st (n, ev)) (n + 1) := by
  rcases hinv with ⟨h1, h2, h3, h4, h5, h6, h7⟩
  unfold corrStep
  cases hres : findBest ev.time ems st.used with
  | mk fst snd =>
    cases fst with
    | none =>
      dsimp only
      refine ⟨h1, fun x hx => Nat.lt_succ_of_lt (h2 x hx), h3, h4, h5, h6, ?_⟩
      show st.correlated + (st.tick_only + 1) = n + 1
      omega
    | some p =>
      obtain ⟨i, m⟩ := p
      have hf1 : (findBest ev.time ems st.used).1 = some (i, m) := by rw [hres]
      rcases findBest_some_spec ev.time ems st.used hpw i m hf1 with ⟨hmem, hnu, _, _, _⟩
      dsimp only
      rw [if_neg hnu]
      refine ⟨?_, ?_, ?_, ?_, ?_, ?_, ?_⟩
      · rw [List.map_append]
        refine List.pairwise_append.mpr ⟨h1, List.pairwise_singleton _ _, ?_⟩
        intro x hx y hy
        rcases List.mem_singleton.mp (by simpa using hy) with rfl
        exact h2 x hx
      · intro x hx
        rw [List.map_append] at hx
        rcases List.mem_append.mp hx with hx | hx
        · exact Nat.lt_succ_of_lt (h2 x hx)
        · have hx2 : x = n := by simpa using hx
          omega
      · rw [List.map_append, List.reverse_append]
        simpa using congrArg (fun l => i :: l) h3
      · exact List.nodup_cons.mpr ⟨hnu, h4⟩
      · intro j hj
        rcases List.mem_cons.mp hj with rfl | hj
        · exact hlen (j, m) hmem
        · exact h5 j hj
      · simpa using h6
      · dsimp only
        omega

theorem corr_foldl_inv (ems : List (Nat × Ev))
    (hpw : ems.Pairwise (fun a b => a.1 < b.1))
    (hlen : ∀ jm ∈ ems, jm.1 < ems.length) :
    ∀ (l : List Ev) (n : Nat) (st : CorrState), corrInvariant ems st n →
    corrInvariant ems (List.foldl (corrStep ems) st (List.enumFrom n l)) (n + l.length) := by
  intro l
  induction l with
  | nil =>
    intro n st h
    simpa using h
  | cons x xs ih =>
    intro n st h
    rw [List.enumFrom_cons, List.foldl_cons]
    have hx := ih (n + 1) (corrStep ems st (n, x)) (corrStep_inv ems hpw hlen st n x h)
    have harith : n + 1 + xs.length = n + (xs.length + 1) := by omega
    rw [harith] at hx
    simpa using hx

theorem runCorrelation_invariant (tms mms : List Ev) :
    corrInvariant ((sortByTime mms).enum)
      ((sortByTime tms).enum.foldl (fun st tp => corrStep ((sortByTime mms).enum) st tp)
        (CorrState.mk 0 0 [] []))
      (sortByTime tms).length := by
  have hpw : ((sortByTime mms).enum).Pairwise (fun a b => a.1 < b.1) :=
    enumFrom_pairwise_fst_lt (sortByTime mms) 0
  have hlen : ∀ jm ∈ (sortByTime mms).enum, jm.1 < ((sortByTime mms).enum).length := by
    intro jm hjm
    rw [enum_length]
    simpa using enumFrom_fst_lt_length (sortByTime mms) 0 jm hjm
  have h0 : corrInvariant ((sortByTime mms).enum) (CorrState.mk 0 0 [] []) 0 := by
    refine ⟨by simp, by simp, by simp, by simp, by simp, by simp, by simp⟩
  have := corr_foldl_inv ((sortByTime mms).enum) hpw hlen (sortByTime tms) 0
    (CorrState.mk 0 0 [] []) h0
  simpa using this

/-! ### Claim C7 -/

/-- C7.  The pairing the matcher produces is injective in both
directions: the recorded pairs carry pairwise-distinct tick positions and
pairwise-distinct marker indices — a marker placed in the used set is
skipped by every later scan, so it is never paired twice. -/
theorem correlation_pairing_injective (tms mms : List Ev) :
    ((runCorrelation tms mms).pairs.map (fun p => p.1)).Nodup
    ∧ ((runCorrelation tms mms).pairs.map (fun p => p.2.1)).Nodup := by
  have hinv := runCorrelation_invariant tms mms
  rcases hinv with ⟨h1, _, h3, h4, _, _, _⟩
  constructor
  · exact List.Pairwise.imp (fun hlt => Nat.ne_of_lt hlt) h1
  · have : ((runCorrelation tms mms).pairs.map (fun p => p.2.1))
        = ((sortByTime tms).enum.foldl
            (fun st tp => corrStep ((sortByTime mms).enum) st tp)
            (CorrState.mk 0 0 [] [])).used.reverse := by
      rw [h3]
      simp [runCorrelation]
    rw [this]
    exact List.nodup_reverse.mpr h4

/-! ### Claim C8 -/

/-- C8.  The matcher's accounting identities: matched plus tick-only
equals the number of tick-markers, and matched plus marker-only equals
the number of markers. -/
theorem correlation_accounting (tms mms : List Ev) :
    (runCorrelation tms mms).correlated + (runCorrelation tms mms).tick_only = tms.length
    ∧ (runCorrelation tms mms).correlated + (runCorrelation tms mms).marker_only
        = mms.length := by
  have hinv := runCorrelation_invariant tms mms
  rcases hinv with ⟨_, _, _, h4, h5, h6, h7⟩
  have htlen : (sortByTime tms).length = tms.length := (sortByTime_perm tms).length_eq
  have hmlen : (sortByTime mms).length = mms.length := (sortByTime_perm mms).length_eq
  have helen : ((sortByTime mms).enum).length = mms.length := by
    rw [enum_length, hmlen]
  set st := (sortByTime tms).enum.foldl
    (fun st tp => corrStep ((sortByTime mms).enum) st tp) (CorrState.mk 0 0 [] []) with hst
  have hused : st.used.length ≤ mms.length := by
    have hsub : st.used ⊆ List.range mms.length := by
      intro i hi
      exact List.mem_range.mpr (helen ▸ h5 i hi)
    have := (List.Nodup.subperm h4 hsub).length_le
    simpa using this
  constructor
  · show st.correlated + st.tick_only = tms.length
    rw [h7, htlen]
  · show st.correlated + ((sortByTime mms).length - st.used.length) = mms.length
    rw [hmlen, h6]
    omega

/-! ### Claim C10: determinism -/

theorem updateAssoc_keys {β : Type} (k : String) (f : β → β) (d : β) (l : List (String × β)) :
    (updateAssoc k f d l).map (fun p => p.1)
      = if k ∈ l.map (fun p => p.1) then l.map (fun p => p.1)
        else l.map (fun p => p.1) ++ [k] := by
  induction l with
  | nil => simp [updateAssoc]
  | cons hd tl ih =>
    obtain ⟨q, v⟩ := hd
    by_cases hqk : q = k
    · subst hqk
      simp [updateAssoc]
    · simp only [updateAssoc, if_neg hqk, List.map_cons]
      rw [ih]
      have hkq : ¬k = q := fun h => hqk h.symm
      by_cases hk : k ∈ tl.map (fun p => p.1)
      · simp [hk, hkq]
      · simp [hk, hkq]

theorem foldl_bump_keys (ks : List String) :
    ∀ acc : List (String × Nat),
    (ks.foldl bump acc).map (fun p => p.1)
      = ks.foldl (fun a k => if k ∈ a then a else a ++ [k]) (acc.map (fun p => p.1)) := by
  induction ks with
  | nil => intro acc; rfl
  | cons k ks ih =>
    intro acc
    rw [List.foldl_cons, List.foldl_cons, ih, bump, updateAssoc_keys]

theorem countLabels_keys (ks : List String) :
    (countLabels ks).map (fun p => p.1) = firstSeen ks := by
  unfold countLabels firstSeen
  exact foldl_bump_keys ks []

theorem subStep_keys (acc : Nat × Nat × List (String × Nat × Nat)) (r : SubRow) :
    ((subStep acc r).2.2).map (fun p => p.1)
      = if r.expected ∈ (acc.2.2).map (fun p => p.1) then (acc.2.2).map (fun p => p.1)
        else (acc.2.2).map (fun p => p.1) ++ [r.expected] := by
  obtain ⟨t0, m0, be⟩ := acc
  unfold subStep
  by_cases hy : r.matchv = "YES"
  · simp only [hy, if_pos]
    rw [updateAssoc_keys, updateAssoc_keys]
    by_cases hk : r.expected ∈ be.map (fun p => p.1)
    · simp [hk]
    · simp [hk]
  · simp only [hy, if_neg, ite_false]
    rw [updateAssoc_keys]

theorem subFold_keys (rows : List SubRow) :
    ∀ acc : Nat × Nat × List (String × Nat × Nat),
    ((rows.foldl subStep acc).2.2).map (fun p => p.1)
      = (rows.map (fun r => r.expected)).foldl (fun a k => if k ∈ a then a else a ++ [k])
          ((acc.2.2).map (fun p => p.1)) := by
  induction rows with
  | nil => intro acc; rfl
  | cons r rows ih =>
    intro acc
    rw [List.foldl_cons, List.map_cons, List.foldl_cons, ih, subStep_keys]

instance : IsAntisymm (Rat × String) (fun a b => candGe a b = true) :=
  ⟨fun _ _ => candGe_antisymm⟩

theorem sortDesc_eq_of_perm {l1 l2 : List (Rat × String)} (h : l1.Perm l2) :
    sortDesc l1 = sortDesc l2 :=
  List.eq_of_perm_of_sorted ((sortDesc_perm l1).trans (h.trans (sortDesc_perm l2).symm))
    (sortDesc_sorted l1) (sortDesc_sorted l2)

theorem locate_perm_invariant (l1 l2 : List FileMeta) (h : l1.Perm l2) (c : Cat) :
    locate l1 c = locate l2 c := by
  unfold locate pickLatest candidatesFor
  rw [sortDesc_eq_of_perm ((h.filter _).map _)]

/-- C10.  For a fixed directory snapshot the run is deterministic: the
only enumeration-order-dependent input is the directory listing, and the
locator's choice is invariant under permuting it (the descending
`(mtime, path)` sort totally orders candidates); every label aggregation
(sync states and channel quality via `countLabels`, subcarrier buckets
via `subStep`) lists its labels in first-seen row order, dict insertion
order, independent of any hash state.  The analyzers and the report
assembly are pure functions of the selected rows, so two runs over the
same snapshot print character-for-character identical text. -/
theorem report_deterministic :
    (∀ (l1 l2 : List FileMeta), l1.Perm l2 → ∀ c : Cat, locate l1 c = locate l2 c)
    ∧ (∀ ks : List String, (countLabels ks).map (fun p => p.1) = firstSeen ks)
    ∧ (∀ rows : List ChannelRow,
        (analyzeChannel rows).quality.map (fun p => p.1)
          = firstSeen (rows.map (fun r => r.quality)))
    ∧ (∀ rows : List SubRow,
        ((analyzeSubcarrier rows).by_expected).map (fun p => p.1)
          = firstSeen (rows.map (fun r => r.expected))) := by
  refine ⟨locate_perm_invariant, countLabels_keys, ?_, ?_⟩
  · intro rows
    show (qualityCounts rows).map (fun p => p.1) = firstSeen (rows.map (fun r => r.quality))
    unfold qualityCounts
    exact countLabels_keys _
  · intro rows
    show ((rows.foldl subStep (0, 0, [])).2.2).map (fun p => p.1)
      = firstSeen (rows.map (fun r => r.expected))
    rw [subFold_keys rows (0, 0, [])]
    rfl

/-- C10, witness: swapping two directory entries does not change the
selected sync log. -/
theorem report_deterministic_witness :
    locate [FileMeta.mk "a_sync.csv" 1, FileMeta.mk "b_ticks.csv" 2] Cat.sync
      = locate [FileMeta.mk "b_ticks.csv" 2, FileMeta.mk "a_sync.csv" 1] Cat.sync :=
  report_deterministic.1 _ _
    (List.Perm.swap (FileMeta.mk "b_ticks.csv" 2) (FileMeta.mk "a_sync.csv" 1) []) Cat.sync

end WWV
